import Mathlib

/-!
# Verification of the UNO-SOFT/filecache trim and serve logic

This file is a shallow embedding of the cache-trimming algorithm of
`cache.go` (`Cache.trim`, `Cache.trimSubdir`, the option setters and the
facade methods `Put`/`Get`/`GetBytes`/`GetFile`/`Trim`) and of the HTTP
handler of `cmd/filecache/main.go` (the `serve` subcommand), together with
theorems about them.

Modelling conventions:
* Times, durations and file sizes are unbounded integers (`Int`); the Go
  values are `int64` nanoseconds / bytes and stay far from overflow, so no
  modular reduction is needed.
* A `time.Time` zero value is `Option.none`; `time.Unix t 0` is `some t`.
* The on-disk state visible to `trim` is the 256 shard subdirectories
  (a list of directories, each a list of `FileEntry`) plus the `trim.txt`
  timestamp file (`Option Int`: `none` when absent or unparseable).
* `os.Stat`/`DirEntry.Info` always succeed in the model; deletion always
  succeeds (the code ignores such errors anyway).
* The one fallible step that matters to the claims is the
  `lockedfile.Write` of `trim.txt` at the end of `trim`; it is modelled by
  the boolean input `writeFails`.
-/

namespace Filecache

/-- A directory entry as `trim` sees it: its name (a list of characters),
its size in bytes, and its modification time. -/
structure FileEntry where
  name : List Char
  size : Int
  mtime : Int
deriving DecidableEq, Repr

/-- The 256 shard subdirectories of the cache root, in order `00 .. ff`. -/
abbrev Shards := List (List FileEntry)

/-- `strings.HasSuffix name s`: the last `s.length` characters of `name`
are exactly `s`. -/
def hasSuffix (s name : List Char) : Bool :=
  decide (name.drop (name.length - s.length) = s)

/-- The check of `cache.go:276`: the file name ends in the reserved cache
entry suffix `-a` (index) or `-d` (content). -/
def isCacheEntryName (name : List Char) : Bool :=
  hasSuffix ['-', 'a'] name || hasSuffix ['-', 'd'] name

/-- The check of `cache.go:227-229` (the maxSize truncation pass):
`len(name) > 2` and the last two characters are `-a` or `-d`. -/
def isTruncRemovableName (name : List Char) : Bool :=
  decide (2 < name.length) &&
    (hasSuffix ['-', 'a'] name || hasSuffix ['-', 'd'] name)

/-- The deletion condition of `cache.go:285-286`:
`info.ModTime().Before(cutoffTime) || (cutoffSize > 0 && info.Size() >
cutoffSize && info.ModTime().Before(sizeCutoffTime))`. -/
def shouldRemoveEntry (cutoffTime cutoffSize sizeCutoffTime : Int)
    (e : FileEntry) : Bool :=
  decide (e.mtime < cutoffTime) ||
    (decide (0 < cutoffSize) && decide (cutoffSize < e.size) &&
      decide (e.mtime < sizeCutoffTime))

/-- `Cache.trimSubdir` (`cache.go:251-296`): one pass over a shard
directory; returns the surviving directory contents and the accumulated
size of the retained `-a`/`-d` entries. -/
def trimSubdir (cutoffTime cutoffSize sizeCutoffTime : Int) :
    List FileEntry → List FileEntry × Int
  | [] => ([], 0)
  | e :: rest =>
    if !isCacheEntryName e.name then
      ((trimSubdir cutoffTime cutoffSize sizeCutoffTime rest).1.cons e,
       (trimSubdir cutoffTime cutoffSize sizeCutoffTime rest).2)
    else if shouldRemoveEntry cutoffTime cutoffSize sizeCutoffTime e then
      trimSubdir cutoffTime cutoffSize sizeCutoffTime rest
    else
      ((trimSubdir cutoffTime cutoffSize sizeCutoffTime rest).1.cons e,
       (trimSubdir cutoffTime cutoffSize sizeCutoffTime rest).2 + e.size)

/-- The loop of `cache.go:209-212`: `trimSubdir` over every shard, summing
the retained sizes. -/
def trimShards (cutoffTime cutoffSize sizeCutoffTime : Int) :
    Shards → Shards × Int
  | [] => ([], 0)
  | d :: ds =>
    ((trimShards cutoffTime cutoffSize sizeCutoffTime ds).1.cons
       (trimSubdir cutoffTime cutoffSize sizeCutoffTime d).1,
     (trimSubdir cutoffTime cutoffSize sizeCutoffTime d).2 +
       (trimShards cutoffTime cutoffSize sizeCutoffTime ds).2)

/-- The inner loop of the maxSize truncation pass (`cache.go:219-233`) on
one shard: subtract each entry's size from the running counter, stop
(retaining the entry and the rest of the directory) as soon as the counter
is at most `maxSize / 2`, otherwise delete the entry when its name has a
reserved suffix. Returns the surviving contents and the final counter.
(`trim` invokes this pass only when `0 < maxSize`, where Lean's `Int`
division of `maxSize` by `2` agrees with Go's `int64` division.) -/
def truncSubdir (maxSize : Int) : Int → List FileEntry → List FileEntry × Int
  | size, [] => ([], size)
  | size, e :: rest =>
    if size - e.size ≤ maxSize / 2 then (e :: rest, size - e.size)
    else if isTruncRemovableName e.name then
      truncSubdir maxSize (size - e.size) rest
    else
      ((truncSubdir maxSize (size - e.size) rest).1.cons e,
       (truncSubdir maxSize (size - e.size) rest).2)

/-- The outer loop of the maxSize truncation pass (`cache.go:216-234`):
`truncSubdir` over every shard, threading the running size counter (the
`break` only leaves the inner loop; the outer loop visits every shard). -/
def truncShards (maxSize : Int) : Int → Shards → Shards × Int
  | size, [] => ([], size)
  | size, d :: ds =>
    ((truncShards maxSize (truncSubdir maxSize size d).2 ds).1.cons
       (truncSubdir maxSize size d).1,
     (truncShards maxSize (truncSubdir maxSize size d).2 ds).2)

/-- Total size of all entries of one directory. -/
def dirTotalSize (d : List FileEntry) : Int := (d.map (·.size)).sum

/-- Total size of the `-a`/`-d` cache entries of one directory. -/
def dirCacheSize (d : List FileEntry) : Int :=
  ((d.filter (fun e => isCacheEntryName e.name)).map (·.size)).sum

/-- Total size of all entries of all shards. -/
def shardsTotalSize (s : Shards) : Int := (s.map dirTotalSize).sum

/-- Total retained size of the `-a`/`-d` cache entries of all shards. -/
def shardsCacheSize (s : Shards) : Int := (s.map dirCacheSize).sum

/-- The cache configuration (`cache.go:42-53`). -/
structure Config where
  maxSize : Int
  trimSize : Int
  trimInterval : Int
  trimLimit : Int
deriving DecidableEq, Repr

/-- The mutable state `trim` interacts with: the in-process `C.lastTrim`,
the on-disk `trim.txt` timestamp, and the shard directories. -/
structure CacheState where
  lastTrim : Option Int
  trimTxt : Option Int
  shards : Shards
deriving DecidableEq, Repr

/-- Result of one `trim` call: the new state, whether the shard scan was
performed, whether `trim.txt` was read (`lockedfile.Read` invoked), the
returned error, and — when the maxSize truncation pass ran — the final
value of its running size counter. -/
structure TrimResult where
  state : CacheState
  scanned : Bool
  readTrimFile : Bool
  err : Bool
  truncFinal : Option Int
deriving DecidableEq, Repr

/-- `cache.go:204-247`: the part of `trim` after the throttling checks:
the age/size pass over every shard, the optional maxSize truncation pass,
setting `C.lastTrim = now`, and the `lockedfile.Write` of `trim.txt`
whose failure is returned as the function's error. -/
def trimScan (cfg : Config) (st : CacheState) (now : Int)
    (writeFails readFile : Bool) : TrimResult :=
  let scan := trimShards (now - cfg.trimLimit) cfg.trimSize
    (now - cfg.trimInterval) st.shards
  let afterTrunc : Shards × Option Int :=
    if 0 < cfg.maxSize ∧ cfg.maxSize < scan.2 then
      ((truncShards cfg.maxSize scan.2 scan.1).1,
       some (truncShards cfg.maxSize scan.2 scan.1).2)
    else (scan.1, none)
  { state := { lastTrim := some now,
               trimTxt := if writeFails then st.trimTxt else some now,
               shards := afterTrunc.1 },
    scanned := true, readTrimFile := readFile, err := writeFails,
    truncFinal := afterTrunc.2 }

/-- `cache.go:192-202`: after the in-memory fast path declined to skip,
read `trim.txt` (only when `trimInterval > 0`), refresh `C.lastTrim` from
it when it parses, and skip when the parsed time is recent; otherwise fall
through to the scan. -/
def trimAfterFast (cfg : Config) (st : CacheState) (now : Int)
    (writeFails : Bool) : TrimResult :=
  if 0 < cfg.trimInterval then
    match st.trimTxt with
    | some t =>
      if now - t < cfg.trimInterval then
        { state := { st with lastTrim := some t },
          scanned := false, readTrimFile := true, err := false,
          truncFinal := none }
      else trimScan cfg { st with lastTrim := some t } now writeFails true
    | none => trimScan cfg st now writeFails true
  else trimScan cfg st now writeFails false

/-- `Cache.trim` (`cache.go:177-248`). The first throttling check
(`cache.go:179-182`) skips using the in-memory `C.lastTrim` alone:
`!C.lastTrim.IsZero() && now.Sub(C.lastTrim) < C.trimInterval`. -/
def trim (cfg : Config) (st : CacheState) (now : Int)
    (writeFails : Bool) : TrimResult :=
  match st.lastTrim with
  | some t =>
    if now - t < cfg.trimInterval then
      { state := st, scanned := false, readTrimFile := false, err := false,
        truncFinal := none }
    else trimAfterFast cfg st now writeFails
  | none => trimAfterFast cfg st now writeFails

/-- `Cache.Put` (`cache.go:136-141`): under the facade mutex, run `trim`,
then delegate the write to the underlying store. The underlying
`cache.Cache.Put` only touches files inside the shard directories; it is
modelled by an arbitrary transformation `g` of the shards. -/
def Put (cfg : Config) (g : Shards → Shards) (st : CacheState) (now : Int)
    (writeFails : Bool) : CacheState × Bool :=
  ({ (trim cfg st now writeFails).state with
     shards := g (trim cfg st now writeFails).state.shards },
   (trim cfg st now writeFails).scanned)

/-- `Cache.Get` (`cache.go:147-151`): delegate to the underlying store;
no `trim` call. The underlying `cache.Cache.Get` touches only files inside
the shard directories (it refreshes entry mtimes), modelled by `g`; the
returned flag records whether a trim scan was performed (never). -/
def Get (g : Shards → Shards) (st : CacheState) : CacheState × Bool :=
  ({ st with shards := g st.shards }, false)

/-- `Cache.GetBytes` (`cache.go:156-160`): same shape as `Get`. -/
def GetBytes (g : Shards → Shards) (st : CacheState) : CacheState × Bool :=
  ({ st with shards := g st.shards }, false)

/-- `Cache.GetFile` (`cache.go:164-168`): same shape as `Get`. -/
def GetFile (g : Shards → Shards) (st : CacheState) : CacheState × Bool :=
  ({ st with shards := g st.shards }, false)

/-! ## Options and `Open` (`cache.go:34-132`) -/

def DefaultMaxSize : Int := 0
/-- `5 * time.Minute` in nanoseconds. -/
def DefaultTrimInterval : Int := 300000000000
/-- `24 * time.Hour` in nanoseconds. -/
def DefaultTrimLimit : Int := 86400000000000
/-- `100 << 20` bytes. -/
def DefaultTrimSize : Int := 104857600

/-- One element of `Open`'s option list. `withNow` and `withLogger` only
set the clock and the logger (`cache.go:64-70, 97-103`), neither of which
is part of `Config`. -/
inductive CacheOpt where
  | withMaxSize (n : Int)
  | withTrimSize (n : Int)
  | withTrimInterval (d : Int)
  | withTrimLimit (d : Int)
  | withNow
  | withLogger
deriving DecidableEq, Repr

/-- Application of one option setter (`cache.go:56-94`): each numeric
setter replaces a negative argument with the package default. -/
def applyOpt (c : Config) : CacheOpt → Config
  | .withMaxSize n => { c with maxSize := if n < 0 then DefaultMaxSize else n }
  | .withTrimSize n => { c with trimSize := if n < 0 then DefaultTrimSize else n }
  | .withTrimInterval d =>
      { c with trimInterval := if d < 0 then DefaultTrimInterval else d }
  | .withTrimLimit d =>
      { c with trimLimit := if d < 0 then DefaultTrimLimit else d }
  | .withNow => c
  | .withLogger => c

/-- The configuration part of `Open` (`cache.go:116-132`): start from the
package defaults, then apply the options in order. -/
def openConfig (opts : List CacheOpt) : Config :=
  opts.foldl applyOpt
    { maxSize := DefaultMaxSize, trimSize := DefaultTrimSize,
      trimInterval := DefaultTrimInterval, trimLimit := DefaultTrimLimit }

/-! ## The HTTP handler of the `serve` subcommand

Embedded from `cmd/filecache/main.go` (the handler registered with
`http.HandleFunc` in `serveCmd.Exec`; this is the version of the command
that matches the current library API — the repository also carries an
older copy of `main.go` without the empty-body and zero-length checks).
The filesystem and store outcomes the handler branches on are inputs. -/

inductive HMethod where
  | get
  | post
  | other
deriving DecidableEq, Repr

/-- `cap(actionID)` for `ActionID = cache.ActionID` (a 32-byte array). -/
def actionIDSize : Nat := 32

/-- The outcomes the GET branch observes: `cache.GetFile`'s file name
(`none` models `fn == ""`) and error, `os.Open`'s outcome (and whether its
error `errors.Is fs.ErrNotExist`), `Stat`'s outcome and the file size. -/
structure GetEnv where
  getFileFn : Option (List Char)
  getFileErr : Bool
  openOk : Bool
  openNotExist : Bool
  statOk : Bool
  fileSize : Int
deriving DecidableEq, Repr

/-- The outcomes the POST branch observes: `os.CreateTemp`, the
`io.Copy` of the request body (with the number of bytes copied), and
`cache.Put`'s error. A successful `cache.Put` returns the number of bytes
it read, i.e. the length of the received body. -/
structure PostEnv where
  createTempOk : Bool
  copyOk : Bool
  bodyLen : Int
  putErr : Bool
deriving DecidableEq, Repr

/-- The handler's observable outcome: HTTP status, and whether
`cache.Put` was invoked. -/
structure HResponse where
  status : Nat
  putCalled : Bool
deriving DecidableEq, Repr

/-- The request handler of the `serve` subcommand. `decoded` is the
result of base64-URL-decoding the path segment (`none` when decoding
fails). -/
def serveHTTP (decoded : Option (List Nat)) (method : HMethod)
    (genv : GetEnv) (penv : PostEnv) : HResponse :=
  match decoded with
  | none => ⟨400, false⟩
  | some b =>
    if b.length ≠ actionIDSize then ⟨400, false⟩
    else
      match method with
      | .other => ⟨405, false⟩
      | .get =>
        match genv.getFileFn with
        | none => ⟨404, false⟩
        | some _ =>
          if genv.getFileErr then ⟨500, false⟩
          else if !genv.openOk then
            if genv.openNotExist then ⟨404, false⟩ else ⟨500, false⟩
          else if !genv.statOk then ⟨404, false⟩
          else if genv.fileSize = 0 then ⟨404, false⟩
          else ⟨200, false⟩
      | .post =>
        if !penv.createTempOk then ⟨500, false⟩
        else if !penv.copyOk then ⟨500, false⟩
        else if penv.bodyLen = 0 then ⟨412, false⟩
        else if penv.putErr then ⟨500, true⟩
        else if penv.bodyLen = 0 then ⟨500, true⟩
        else ⟨201, true⟩

/-! ## Concrete inputs used by the witnesses and counterexamples -/

/-- C1 input: `maxSize = 10`, one shard holding a single content file of
size `11` that the age/size pass retains. -/
def c1Cfg : Config :=
  { maxSize := 10, trimSize := 0, trimInterval := 0, trimLimit := 100 }

def c1Entry : FileEntry := { name := ['a', 'a', '-', 'd'], size := 11, mtime := 0 }

def c1St : CacheState := { lastTrim := none, trimTxt := none, shards := [[c1Entry]] }

/-- C2 input: `trimSize = 10`, `trimInterval = 5`, `trimLimit = 100`. -/
def c2Cfg : Config :=
  { maxSize := 0, trimSize := 10, trimInterval := 5, trimLimit := 100 }

/-- An oversized entry older than `now - trimInterval` but younger than
`now - trimLimit` (for `now = 0`). -/
def c2Big : FileEntry := { name := ['b', 'b', '-', 'd'], size := 11, mtime := -6 }

/-- A same-age entry not larger than `trimSize`. -/
def c2Small : FileEntry := { name := ['c', 'c', '-', 'd'], size := 5, mtime := -6 }

/-- C3 input: a GET environment (unused by the POST branch). -/
def c3Genv : GetEnv :=
  { getFileFn := none, getFileErr := false, openOk := false,
    openNotExist := false, statOk := false, fileSize := 0 }

/-- C3 input: an empty request body. -/
def c3PenvEmpty : PostEnv :=
  { createTempOk := true, copyOk := true, bodyLen := 0, putErr := false }

/-- C3 input: a five-byte request body, with `cache.Put` succeeding. -/
def c3PenvFull : PostEnv :=
  { createTempOk := true, copyOk := true, bodyLen := 5, putErr := false }

/-- C4 input: the store resolves the entry, the content file opens and
stats fine, but it has zero length. -/
def c4Genv : GetEnv :=
  { getFileFn := some ['f'], getFileErr := false, openOk := true,
    openNotExist := false, statOk := true, fileSize := 0 }

/-- C4 input: a POST environment (unused by the GET branch). -/
def c4Penv : PostEnv :=
  { createTempOk := false, copyOk := false, bodyLen := 0, putErr := false }

/-- C5 input: `trimInterval = 10`; the last trim was recorded at `100`. -/
def c5Cfg : Config :=
  { maxSize := 0, trimSize := 0, trimInterval := 10, trimLimit := 100 }

def c5St : CacheState := { lastTrim := some 100, trimTxt := some 100, shards := [] }

/-- C6 input: `trimInterval = 10`. -/
def c6Cfg : Config :=
  { maxSize := 0, trimSize := 0, trimInterval := 10, trimLimit := 100 }

/-- C6 input: the in-memory `lastTrim` is recent (`100`), but the on-disk
`trim.txt` holds a stale `0` (reachable, e.g., when the previous trim's
timestamp write failed). -/
def c6St : CacheState := { lastTrim := some 100, trimTxt := some 0, shards := [] }

/-- C7 input: a due trim over an empty cache. -/
def c7Cfg : Config :=
  { maxSize := 0, trimSize := 0, trimInterval := 10, trimLimit := 100 }

def c7St : CacheState := { lastTrim := none, trimTxt := none, shards := [] }

/-- C9 input: a trim that would evict any cache entry this old. -/
def c9Cfg : Config :=
  { maxSize := 0, trimSize := 0, trimInterval := 0, trimLimit := 10 }

/-- A very old file without the `-a`/`-d` suffix. -/
def c9Keep : FileEntry := { name := ['k'], size := 3, mtime := -1000 }

def c9St : CacheState := { lastTrim := none, trimTxt := some 7, shards := [[c9Keep]] }

/-- C10 input: an arbitrary configuration. -/
def c10Cfg : Config :=
  { maxSize := 1, trimSize := 2, trimInterval := 3, trimLimit := 4 }

end Filecache


namespace Filecache

/-! ## Helper lemmas about the scan pass -/

/-- The kept entries of one `trimSubdir` pass are exactly the directory
entries that are foreign (no `-a`/`-d` suffix) or fail the removal
condition. -/
theorem trimSubdir_fst (ct cs sct : Int) (d : List FileEntry) :
    (trimSubdir ct cs sct d).1 =
      d.filter (fun e => !isCacheEntryName e.name || !shouldRemoveEntry ct cs sct e) := by
  induction d with
  | nil => rfl
  | cons e rest ih =>
    by_cases h1 : isCacheEntryName e.name
    · by_cases h2 : shouldRemoveEntry ct cs sct e
      · simp [trimSubdir, h1, h2, ih, List.filter_cons]
      · simp [trimSubdir, h1, h2, ih, List.filter_cons]
    · simp [trimSubdir, h1, ih, List.filter_cons]

/-- Entries surviving `trimSubdir` come from the scanned directory. -/
theorem trimSubdir_fst_subset (ct cs sct : Int) (d : List FileEntry)
    (e : FileEntry) (h : e ∈ (trimSubdir ct cs sct d).1) : e ∈ d := by
  rw [trimSubdir_fst] at h
  exact (List.mem_filter.mp h).1

/-- The size accumulated by `trimSubdir` is the total size of the
retained `-a`/`-d` entries. -/
theorem trimSubdir_snd (ct cs sct : Int) (d : List FileEntry) :
    (trimSubdir ct cs sct d).2 = dirCacheSize (trimSubdir ct cs sct d).1 := by
  induction d with
  | nil => rfl
  | cons e rest ih =>
    by_cases h1 : isCacheEntryName e.name
    · by_cases h2 : shouldRemoveEntry ct cs sct e
      · simp [trimSubdir, h1, h2, ih]
      · simp [trimSubdir, dirCacheSize, List.filter_cons, h1, h2] at ih ⊢
        omega
    · simp [trimSubdir, dirCacheSize, List.filter_cons, h1] at ih ⊢
      exact ih

/-- For nonnegative sizes, cache entries account for at most the whole
directory. -/
theorem dirCacheSize_le_total (d : List FileEntry)
    (h : ∀ e ∈ d, 0 ≤ e.size) : dirCacheSize d ≤ dirTotalSize d := by
  induction d with
  | nil => simp [dirCacheSize, dirTotalSize]
  | cons e rest ih =>
    have he := h e (by simp)
    have ih' := ih fun x hx => h x (by simp [hx])
    by_cases h1 : isCacheEntryName e.name <;>
      simp only [dirCacheSize, dirTotalSize, List.filter_cons, h1,
        List.map_cons, List.sum_cons, if_pos, if_true, if_false,
        Bool.false_eq_true, ite_false, ite_true] at ih' ⊢ <;>
      linarith

theorem dirTotalSize_nonneg (d : List FileEntry)
    (h : ∀ e ∈ d, 0 ≤ e.size) : 0 ≤ dirTotalSize d := by
  refine List.sum_nonneg fun x hx => ?_
  obtain ⟨e, he, rfl⟩ := List.mem_map.mp hx
  exact h e he

theorem shardsTotalSize_nonneg (s : Shards)
    (h : ∀ d ∈ s, ∀ e ∈ d, 0 ≤ e.size) : 0 ≤ shardsTotalSize s := by
  refine List.sum_nonneg fun x hx => ?_
  obtain ⟨d, hd, rfl⟩ := List.mem_map.mp hx
  exact dirTotalSize_nonneg d (h d hd)

/-- Shape of the full scan pass: each shard mapped through `trimSubdir`. -/
theorem trimShards_fst (ct cs sct : Int) (s : Shards) :
    (trimShards ct cs sct s).1 = s.map fun d => (trimSubdir ct cs sct d).1 := by
  induction s with
  | nil => rfl
  | cons d ds ih => simp [trimShards, ih]

/-- The size the scan pass reports is at most the total size of what it
left on disk (sizes being nonnegative). -/
theorem trimShards_snd_le (ct cs sct : Int) (s : Shards)
    (h : ∀ d ∈ s, ∀ e ∈ d, 0 ≤ e.size) :
    (trimShards ct cs sct s).2 ≤ shardsTotalSize (trimShards ct cs sct s).1 := by
  induction s with
  | nil => simp [trimShards, shardsTotalSize]
  | cons d ds ih =>
    have hd : ∀ e ∈ (trimSubdir ct cs sct d).1, 0 ≤ e.size := fun e he =>
      h d (by simp) e (trimSubdir_fst_subset ct cs sct d e he)
    have h1 : (trimSubdir ct cs sct d).2 ≤ dirTotalSize (trimSubdir ct cs sct d).1 := by
      rw [trimSubdir_snd]
      exact dirCacheSize_le_total _ hd
    have ih' := ih fun x hx => h x (by simp [hx])
    simp [trimShards, shardsTotalSize] at ih' ⊢
    linarith

/-- Sizes stay nonnegative through the scan pass. -/
theorem trimShards_nonneg (ct cs sct : Int) (s : Shards)
    (h : ∀ d ∈ s, ∀ e ∈ d, 0 ≤ e.size) :
    ∀ d' ∈ (trimShards ct cs sct s).1, ∀ e ∈ d', 0 ≤ e.size := by
  intro d' hd' e he
  rw [trimShards_fst] at hd'
  obtain ⟨d, hd, rfl⟩ := List.mem_map.mp hd'
  exact h d hd e (trimSubdir_fst_subset ct cs sct d e he)

/-! ## Helper lemmas about the truncation pass -/

/-- The final counter of the inner truncation loop: either the threshold
was reached, or every entry of the directory was subtracted. -/
theorem truncSubdir_snd_cases (m : Int) (d : List FileEntry) :
    ∀ s : Int, (truncSubdir m s d).2 ≤ m / 2 ∨
      (truncSubdir m s d).2 = s - dirTotalSize d := by
  induction d with
  | nil => intro s; right; simp [truncSubdir, dirTotalSize]
  | cons e rest ih =>
    intro s
    by_cases h1 : s - e.size ≤ m / 2
    · left; simp [truncSubdir, h1]
    · rcases ih (s - e.size) with h | h
      · left
        by_cases h2 : isTruncRemovableName e.name <;>
          simpa [truncSubdir, h1, h2] using h
      · right
        by_cases h2 : isTruncRemovableName e.name <;>
          · simp [truncSubdir, h1, h2, h, dirTotalSize] at h ⊢
            omega

/-- The final counter of the whole truncation pass: either the threshold
was reached, or everything was subtracted. -/
theorem truncShards_snd_cases (m : Int) (ds : Shards)
    (h : ∀ d ∈ ds, ∀ e ∈ d, 0 ≤ e.size) :
    ∀ s : Int, (truncShards m s ds).2 ≤ m / 2 ∨
      (truncShards m s ds).2 = s - shardsTotalSize ds := by
  induction ds with
  | nil => intro s; right; simp [truncShards, shardsTotalSize]
  | cons d ds ih =>
    intro s
    have hds : 0 ≤ shardsTotalSize ds :=
      shardsTotalSize_nonneg ds fun x hx => h x (by simp [hx])
    have ih' := ih fun x hx => h x (by simp [hx])
    rcases truncSubdir_snd_cases m d s with h1 | h1
    · rcases ih' (truncSubdir m s d).2 with h2 | h2
      · left; simpa [truncShards] using h2
      · left
        simp only [truncShards]
        omega
    · rcases ih' (truncSubdir m s d).2 with h2 | h2
      · left; simpa [truncShards] using h2
      · right
        simp only [truncShards, shardsTotalSize, List.map_cons, List.sum_cons] at h2 ⊢
        simp only [shardsTotalSize] at hds ⊢
        omega

/-- When the truncation pass starts from a counter bounded by the total
on-disk size, its final counter ends at or below `maxSize / 2`. -/
theorem truncShards_snd_le (m s : Int) (ds : Shards) (hm : 0 < m)
    (h : ∀ d ∈ ds, ∀ e ∈ d, 0 ≤ e.size) (hs : s ≤ shardsTotalSize ds) :
    (truncShards m s ds).2 ≤ m / 2 := by
  rcases truncShards_snd_cases m ds h s with h1 | h1
  · exact h1
  · have h2 : 0 ≤ m / 2 := Int.ediv_nonneg hm.le (by norm_num)
    omega

/-- If `trimScan` ran the truncation pass, the pass's final counter is at
most `maxSize / 2` (sizes being nonnegative). -/
theorem trimScan_truncFinal_le (cfg : Config) (st : CacheState) (now : Int)
    (wf rf : Bool) (hnn : ∀ d ∈ st.shards, ∀ e ∈ d, 0 ≤ e.size) (c : Int)
    (h : (trimScan cfg st now wf rf).truncFinal = some c) :
    c ≤ cfg.maxSize / 2 := by
  simp only [trimScan] at h
  by_cases hc : 0 < cfg.maxSize ∧
      cfg.maxSize <
        (trimShards (now - cfg.trimLimit) cfg.trimSize (now - cfg.trimInterval) st.shards).2
  · rw [if_pos hc] at h
    simp only [Option.some.injEq] at h
    subst h
    have hnn' := trimShards_nonneg (now - cfg.trimLimit) cfg.trimSize
      (now - cfg.trimInterval) st.shards hnn
    exact truncShards_snd_le _ _ _ hc.1 hnn'
      (trimShards_snd_le (now - cfg.trimLimit) cfg.trimSize
        (now - cfg.trimInterval) st.shards hnn)
  · simp [hc] at h

/-- As `trimScan_truncFinal_le`, for `trimAfterFast`. -/
theorem trimAfterFast_truncFinal_le (cfg : Config) (st : CacheState)
    (now : Int) (wf : Bool)
    (hnn : ∀ d ∈ st.shards, ∀ e ∈ d, 0 ≤ e.size) (c : Int)
    (h : (trimAfterFast cfg st now wf).truncFinal = some c) :
    c ≤ cfg.maxSize / 2 := by
  simp only [trimAfterFast] at h
  by_cases hi : 0 < cfg.trimInterval
  · simp only [hi, if_true, if_pos] at h
    cases ht : st.trimTxt with
    | some t =>
      rw [ht] at h
      by_cases h2 : now - t < cfg.trimInterval
      · simp [h2] at h
      · simp only [h2, if_false, ite_false] at h
        exact trimScan_truncFinal_le cfg _ now wf true hnn c h
    | none =>
      rw [ht] at h
      exact trimScan_truncFinal_le cfg st now wf true hnn c h
  · simp only [hi, if_false, ite_false] at h
    exact trimScan_truncFinal_le cfg st now wf false hnn c h

/-! ## Claim C1 -/

/-- C1, counterexample: with `maxSize = 10 > 0` and a retained total of
`11 > maxSize` after the age/size pass, `trim` performs the truncation
pass yet retains the whole `11` bytes — the `break` of `cache.go:223-225`
fires before the `os.Remove`, so the entry whose subtraction brought the
running counter to `≤ maxSize/2` survives, and the retained total stays
above `maxSize / 2 = 5`. -/
theorem trim_maxSize_pass_cex :
    0 < c1Cfg.maxSize ∧
    c1Cfg.maxSize <
      (trimShards (0 - c1Cfg.trimLimit) c1Cfg.trimSize (0 - c1Cfg.trimInterval)
        c1St.shards).2 ∧
    (trim c1Cfg c1St 0 false).scanned = true ∧
    ¬ shardsCacheSize (trim c1Cfg c1St 0 false).state.shards ≤ c1Cfg.maxSize / 2 := by
  decide

/-- C1, amended: when `maxSize > 0` and the size retained by the age/size
pass exceeds `maxSize`, the second destructive pass of `trim` removes
index/content entries until its running size counter falls to at most
`maxSize / 2`; the counter, however, also discounts entries the pass
retains (in particular the entry whose subtraction reaches the
threshold), so only the counter — not the retained on-disk total — is
guaranteed to end at or below `maxSize / 2`. -/
theorem trim_trunc_counter_le_half (cfg : Config) (st : CacheState)
    (now : Int) (wf : Bool) (hnn : ∀ d ∈ st.shards, ∀ e ∈ d, 0 ≤ e.size)
    (c : Int) (h : (trim cfg st now wf).truncFinal = some c) :
    c ≤ cfg.maxSize / 2 := by
  cases hl : st.lastTrim with
  | none =>
    simp only [trim, hl] at h
    exact trimAfterFast_truncFinal_le cfg st now wf hnn c h
  | some t =>
    simp only [trim, hl] at h
    by_cases h2 : now - t < cfg.trimInterval
    · rw [if_pos h2] at h; simp at h
    · rw [if_neg h2] at h
      exact trimAfterFast_truncFinal_le cfg st now wf hnn c h

/-- C1, witness: on the concrete C1 input the truncation pass ran with
final counter `0`, and the amended theorem bounds it by `maxSize / 2`. -/
theorem trim_trunc_counter_le_half_witness :
    (0 : Int) ≤ c1Cfg.maxSize / 2 :=
  trim_trunc_counter_le_half c1Cfg c1St 0 false (by decide) 0 (by decide)

/-! ## Claim C2 -/

/-- C2: during the scan pass of a trim invoked at time `now`, a cache
entry file (name ending in `-a` or `-d`) is deleted if and only if its
mtime is older than `now - trimLimit`, or `trimSize > 0` and its size
exceeds `trimSize` and its mtime is older than `now - trimInterval`
(`trim` passes `cutoffTime = now - trimLimit`, `cutoffSize = trimSize`,
`sizeCutoffTime = now - trimInterval` to `trimSubdir`). -/
theorem trimSubdir_eviction_iff (cfg : Config) (now : Int)
    (d : List FileEntry) (e : FileEntry) (he : e ∈ d)
    (hs : isCacheEntryName e.name = true) :
    e ∉ (trimSubdir (now - cfg.trimLimit) cfg.trimSize (now - cfg.trimInterval) d).1 ↔
      (e.mtime < now - cfg.trimLimit ∨
        (0 < cfg.trimSize ∧ cfg.trimSize < e.size ∧
          e.mtime < now - cfg.trimInterval)) := by
  have hiff : shouldRemoveEntry (now - cfg.trimLimit) cfg.trimSize
      (now - cfg.trimInterval) e = true ↔
      (e.mtime < now - cfg.trimLimit ∨
        (0 < cfg.trimSize ∧ cfg.trimSize < e.size ∧
          e.mtime < now - cfg.trimInterval)) := by
    simp [shouldRemoveEntry, and_assoc]
  rw [trimSubdir_fst, List.mem_filter, ← hiff]
  cases hsr : shouldRemoveEntry (now - cfg.trimLimit) cfg.trimSize
      (now - cfg.trimInterval) e <;> simp [he, hs, hsr]

/-- C2, witness: with `trimSize = 10`, `trimInterval = 5`,
`trimLimit = 100` and `now = 0`, an entry of size `11` with mtime `-6`
(older than `now - trimInterval`, younger than `now - trimLimit`) is
evicted, while a same-age entry of size `5` is retained. -/
theorem trimSubdir_eviction_iff_witness :
    c2Big ∉ (trimSubdir (0 - c2Cfg.trimLimit) c2Cfg.trimSize
        (0 - c2Cfg.trimInterval) [c2Big, c2Small]).1 ∧
    c2Small ∈ (trimSubdir (0 - c2Cfg.trimLimit) c2Cfg.trimSize
        (0 - c2Cfg.trimInterval) [c2Big, c2Small]).1 := by
  constructor
  · exact (trimSubdir_eviction_iff c2Cfg 0 [c2Big, c2Small] c2Big
      (by decide) (by decide)).mpr (by decide)
  · by_contra hc
    exact absurd ((trimSubdir_eviction_iff c2Cfg 0 [c2Big, c2Small] c2Small
      (by decide) (by decide)).mp hc) (by decide)

/-! ## Helper lemmas about throttling and frame effects -/

/-- The in-memory fast path (`cache.go:179-182`): a recorded `lastTrim`
within `trimInterval` of `now` makes `trim` a no-op that reads nothing
and scans nothing. -/
theorem trim_fastpath (cfg : Config) (st : CacheState) (now t : Int)
    (wf : Bool) (h1 : st.lastTrim = some t)
    (h2 : now - t < cfg.trimInterval) :
    trim cfg st now wf =
      { state := st, scanned := false, readTrimFile := false, err := false,
        truncFinal := none } := by
  simp only [trim, h1]
  rw [if_pos h2]

theorem trimScan_state_lastTrim (cfg : Config) (st : CacheState) (now : Int)
    (wf rf : Bool) : (trimScan cfg st now wf rf).state.lastTrim = some now := rfl

theorem trimScan_readTrimFile (cfg : Config) (st : CacheState) (now : Int)
    (wf rf : Bool) : (trimScan cfg st now wf rf).readTrimFile = rf := rfl

/-- Whenever the fast path did not fire, whether `trim.txt` is read is
decided by `trimInterval > 0` alone. -/
theorem trimAfterFast_readTrimFile (cfg : Config) (st : CacheState)
    (now : Int) (wf : Bool) :
    (trimAfterFast cfg st now wf).readTrimFile = decide (0 < cfg.trimInterval) := by
  by_cases hi : 0 < cfg.trimInterval
  · cases ht : st.trimTxt with
    | some t =>
      simp only [trimAfterFast, hi, ht, if_true, ite_true, decide_eq_true hi]
      by_cases h2 : now - t < cfg.trimInterval
      · rw [if_pos h2]; simp
      · rw [if_neg h2]; simp [trimScan_readTrimFile]
    | none =>
      simp only [trimAfterFast, hi, ht, if_true, ite_true, decide_eq_true hi]
      simp [trimScan_readTrimFile]
  · simp only [trimAfterFast, hi, if_false, ite_false]
    rw [trimScan_readTrimFile]
    simp [hi]

/-- A `trim` that scanned records `now` as the new `lastTrim`
(`cache.go:236`). -/
theorem trimAfterFast_scanned_lastTrim (cfg : Config) (st : CacheState)
    (now : Int) (wf : Bool)
    (h : (trimAfterFast cfg st now wf).scanned = true) :
    (trimAfterFast cfg st now wf).state.lastTrim = some now := by
  by_cases hi : 0 < cfg.trimInterval
  · cases ht : st.trimTxt with
    | some t =>
      simp only [trimAfterFast, hi, ht, if_true, ite_true] at h ⊢
      by_cases h2 : now - t < cfg.trimInterval
      · rw [if_pos h2] at h; simp at h
      · rw [if_neg h2]; rfl
    | none =>
      simp only [trimAfterFast, hi, ht, if_true, ite_true]
      rfl
  · simp only [trimAfterFast, hi, if_false, ite_false]
    rfl

theorem trim_scanned_lastTrim (cfg : Config) (st : CacheState) (now : Int)
    (wf : Bool) (h : (trim cfg st now wf).scanned = true) :
    (trim cfg st now wf).state.lastTrim = some now := by
  cases hl : st.lastTrim with
  | none =>
    simp only [trim, hl] at h ⊢
    exact trimAfterFast_scanned_lastTrim cfg st now wf h
  | some t =>
    simp only [trim, hl] at h ⊢
    by_cases h2 : now - t < cfg.trimInterval
    · rw [if_pos h2] at h; simp at h
    · rw [if_neg h2] at h ⊢
      exact trimAfterFast_scanned_lastTrim cfg st now wf h

theorem trim_readTrimFile_of_stale (cfg : Config) (st : CacheState)
    (now : Int) (wf : Bool)
    (h : ∀ t, st.lastTrim = some t → cfg.trimInterval ≤ now - t) :
    (trim cfg st now wf).readTrimFile = decide (0 < cfg.trimInterval) := by
  cases hl : st.lastTrim with
  | none =>
    simp only [trim, hl]
    exact trimAfterFast_readTrimFile cfg st now wf
  | some t =>
    simp only [trim, hl]
    rw [if_neg (not_lt.mpr (h t hl))]
    exact trimAfterFast_readTrimFile cfg st now wf

/-! ## Claim C5 -/

/-- C5: trim is throttled. When the recorded `lastTrim` satisfies
`now - lastTrim < trimInterval`, `trim` returns immediately — no shard
is scanned and the state is untouched; consequently two `Put` calls
within `trimInterval` of each other perform at most one directory scan. -/
theorem trim_throttled :
    (∀ (cfg : Config) (st : CacheState) (now t : Int) (wf : Bool),
       st.lastTrim = some t → now - t < cfg.trimInterval →
       trim cfg st now wf =
         { state := st, scanned := false, readTrimFile := false,
           err := false, truncFinal := none }) ∧
    (∀ (cfg : Config) (g1 g2 : Shards → Shards) (st : CacheState)
       (t1 t2 : Int) (wf1 wf2 : Bool), t2 - t1 < cfg.trimInterval →
       (Put cfg g1 st t1 wf1).2.toNat +
         (Put cfg g2 (Put cfg g1 st t1 wf1).1 t2 wf2).2.toNat ≤ 1) := by
  have hfast := trim_fastpath
  refine ⟨fun cfg st now t wf h1 h2 => hfast cfg st now t wf h1 h2, ?_⟩
  intro cfg g1 g2 st t1 t2 wf1 wf2 h12
  by_cases b1 : (trim cfg st t1 wf1).scanned
  · have hl : (Put cfg g1 st t1 wf1).1.lastTrim = some t1 :=
      trim_scanned_lastTrim cfg st t1 wf1 b1
    have h2 := hfast cfg (Put cfg g1 st t1 wf1).1 t2 t1 wf2 hl h12
    have hs2 : (Put cfg g2 (Put cfg g1 st t1 wf1).1 t2 wf2).2 = false := by
      show (trim cfg (Put cfg g1 st t1 wf1).1 t2 wf2).scanned = false
      rw [h2]
    rw [hs2]
    simp [Put, b1]
  · have hs1 : (Put cfg g1 st t1 wf1).2 = false := by
      show (trim cfg st t1 wf1).scanned = false
      exact Bool.not_eq_true _ ▸ b1
    rw [hs1]
    cases (Put cfg g2 (Put cfg g1 st t1 wf1).1 t2 wf2).2 <;> simp

/-- C5, witness: with `trimInterval = 10` and `lastTrim = 100`, a trim at
`105` is a no-op, and two `Put` calls at `105` and `106` scan at most
once. -/
theorem trim_throttled_witness :
    trim c5Cfg c5St 105 false =
      { state := c5St, scanned := false, readTrimFile := false,
        err := false, truncFinal := none } ∧
    (Put c5Cfg id c5St 105 false).2.toNat +
      (Put c5Cfg id (Put c5Cfg id c5St 105 false).1 106 false).2.toNat ≤ 1 :=
  ⟨trim_throttled.1 c5Cfg c5St 105 100 false rfl (by decide),
   trim_throttled.2 c5Cfg id id c5St 105 106 false false (by decide)⟩

/-! ## Claim C6 -/

/-- C6, counterexample: a state whose in-memory `lastTrim` (`100`) is
within `trimInterval` of `now = 105`, while the on-disk `trim.txt`
holds a stale `0`: `trim` decides to skip without reading `trim.txt`
at all, so the skip decision is made from the in-memory value alone. -/
theorem trim_skip_without_disk_read_cex :
    (trim c6Cfg c6St 105 false).scanned = false ∧
    (trim c6Cfg c6St 105 false).readTrimFile = false ∧
    c6St.trimTxt = some 0 ∧
    c6Cfg.trimInterval ≤ 105 - 0 := by decide

/-- C6, amended: the skip decision is taken from the in-memory `lastTrim`
alone whenever that value already shows a trim within `trimInterval`
(the fast path reads nothing); the on-disk `trim.txt` is consulted
exactly when the in-memory value does not justify skipping and
`trimInterval > 0`, and `lastTrim` is then refreshed from it. -/
theorem trim_disk_read_iff_fastpath_misses :
    (∀ (cfg : Config) (st : CacheState) (now t : Int) (wf : Bool),
       st.lastTrim = some t → now - t < cfg.trimInterval →
       (trim cfg st now wf).readTrimFile = false ∧
       (trim cfg st now wf).scanned = false) ∧
    (∀ (cfg : Config) (st : CacheState) (now : Int) (wf : Bool),
       (∀ t, st.lastTrim = some t → cfg.trimInterval ≤ now - t) →
       (trim cfg st now wf).readTrimFile = decide (0 < cfg.trimInterval)) := by
  constructor
  · intro cfg st now t wf h1 h2
    rw [trim_fastpath cfg st now t wf h1 h2]
    exact ⟨rfl, rfl⟩
  · exact trim_readTrimFile_of_stale

/-- C6, witness: the fast path of the amended statement at the C6 input,
and the disk-read case at the same configuration with no recorded
`lastTrim`. -/
theorem trim_disk_read_iff_fastpath_misses_witness :
    ((trim c6Cfg c6St 105 false).readTrimFile = false ∧
      (trim c6Cfg c6St 105 false).scanned = false) ∧
    (trim c6Cfg { lastTrim := none, trimTxt := some 0, shards := [] } 105
        false).readTrimFile = decide (0 < c6Cfg.trimInterval) :=
  ⟨trim_disk_read_iff_fastpath_misses.1 c6Cfg c6St 105 100 false rfl (by decide),
   trim_disk_read_iff_fastpath_misses.2 c6Cfg
     { lastTrim := none, trimTxt := some 0, shards := [] } 105 false
     (fun t ht => by simp at ht)⟩

/-! ## Claim C7 -/

/-- C7: contrary to the claim (and to the code's own comment, which says
from `cache.go:238` on that errors are to be ignored), a failure to
persist the new trim timestamp is returned to the caller: on a due trim
over an empty cache whose `trim.txt` write fails, `trim` performs the
scan, records `lastTrim = now`, yet returns the write error — which
`Cache.Trim` (`cache.go:171-175`) hands to its caller. -/
theorem trim_write_failure_error_returned :
    (trim c7Cfg c7St 0 true).scanned = true ∧
    (trim c7Cfg c7St 0 true).state.lastTrim = some 0 ∧
    (trim c7Cfg c7St 0 true).err = true := by decide

/-! ## Claim C8 -/

/-- C8: trim runs opportunistically on every `Put` and never on a read:
`Put`'s resulting trim-scheduling state and scan flag are exactly those
of `trim` (run before the delegated store write), while `Get`,
`GetBytes` and `GetFile` perform no scan and leave `lastTrim` and
`trim.txt` unchanged, whatever the underlying store operation does. -/
theorem put_trims_reads_do_not :
    (∀ (cfg : Config) (g : Shards → Shards) (st : CacheState) (now : Int)
       (wf : Bool),
       (Put cfg g st now wf).1.lastTrim = (trim cfg st now wf).state.lastTrim ∧
       (Put cfg g st now wf).1.trimTxt = (trim cfg st now wf).state.trimTxt ∧
       (Put cfg g st now wf).1.shards = g (trim cfg st now wf).state.shards ∧
       (Put cfg g st now wf).2 = (trim cfg st now wf).scanned) ∧
    (∀ (g : Shards → Shards) (st : CacheState),
       (Get g st).1.lastTrim = st.lastTrim ∧
       (Get g st).1.trimTxt = st.trimTxt ∧ (Get g st).2 = false) ∧
    (∀ (g : Shards → Shards) (st : CacheState),
       (GetBytes g st).1.lastTrim = st.lastTrim ∧
       (GetBytes g st).1.trimTxt = st.trimTxt ∧ (GetBytes g st).2 = false) ∧
    (∀ (g : Shards → Shards) (st : CacheState),
       (GetFile g st).1.lastTrim = st.lastTrim ∧
       (GetFile g st).1.trimTxt = st.trimTxt ∧ (GetFile g st).2 = false) :=
  ⟨fun _ _ _ _ _ => ⟨rfl, rfl, rfl, rfl⟩, fun _ _ => ⟨rfl, rfl, rfl⟩,
   fun _ _ => ⟨rfl, rfl, rfl⟩, fun _ _ => ⟨rfl, rfl, rfl⟩⟩

/-! ## Helper lemmas for claim C9 -/

theorem isTruncRemovableName_isCacheEntryName (n : List Char)
    (h : isTruncRemovableName n = true) : isCacheEntryName n = true := by
  simp only [isTruncRemovableName, Bool.and_eq_true] at h
  exact h.2

theorem trimSubdir_keeps_foreign (ct cs sct : Int) (d : List FileEntry)
    (e : FileEntry) (he : e ∈ d) (hf : isCacheEntryName e.name = false) :
    e ∈ (trimSubdir ct cs sct d).1 := by
  rw [trimSubdir_fst, List.mem_filter]
  exact ⟨he, by simp [hf]⟩

theorem truncSubdir_keeps_foreign (m : Int) (d : List FileEntry) :
    ∀ (s : Int) (e : FileEntry), e ∈ d → isCacheEntryName e.name = false →
      e ∈ (truncSubdir m s d).1 := by
  induction d with
  | nil => intro s e he _; simp at he
  | cons a rest ih =>
    intro s e he hf
    by_cases h1 : s - a.size ≤ m / 2
    · simpa only [truncSubdir, h1, if_true, ite_true] using he
    · rcases List.mem_cons.mp he with rfl | hrest
      · have h2 : isTruncRemovableName e.name = false := by
          cases h3 : isTruncRemovableName e.name
          · rfl
          · rw [isTruncRemovableName_isCacheEntryName e.name h3] at hf
            exact absurd hf (by simp)
        simp [truncSubdir, h1, h2]
      · by_cases h2 : isTruncRemovableName a.name
        · simp only [truncSubdir, h1, h2, if_false, ite_false, if_true, ite_true]
          exact ih (s - a.size) e hrest hf
        · simp only [truncSubdir, h1, h2, if_false, ite_false,
            Bool.false_eq_true]
          exact List.mem_cons_of_mem a (ih (s - a.size) e hrest hf)

theorem forall₂_keep_trans {a b c : Shards}
    (h1 : List.Forall₂
      (fun d d' => ∀ e ∈ d, isCacheEntryName e.name = false → e ∈ d') a b)
    (h2 : List.Forall₂
      (fun d d' => ∀ e ∈ d, isCacheEntryName e.name = false → e ∈ d') b c) :
    List.Forall₂
      (fun d d' => ∀ e ∈ d, isCacheEntryName e.name = false → e ∈ d') a c := by
  induction h1 generalizing c with
  | nil => cases h2; exact List.Forall₂.nil
  | cons hr ht ih =>
    cases h2 with
    | cons hr2 ht2 =>
      exact List.Forall₂.cons (fun e he hf => hr2 e (hr e he hf) hf) (ih ht2)

theorem forall₂_keep_refl (s : Shards) :
    List.Forall₂
      (fun d d' => ∀ e ∈ d, isCacheEntryName e.name = false → e ∈ d') s s :=
  List.forall₂_same.mpr fun _ _ e he _ => he

theorem trimShards_keep (ct cs sct : Int) (s : Shards) :
    List.Forall₂
      (fun d d' => ∀ e ∈ d, isCacheEntryName e.name = false → e ∈ d')
      s (trimShards ct cs sct s).1 := by
  induction s with
  | nil => exact List.Forall₂.nil
  | cons d ds ih =>
    exact List.Forall₂.cons
      (fun e he hf => trimSubdir_keeps_foreign ct cs sct d e he hf) ih

theorem truncShards_keep (m : Int) (ds : Shards) :
    ∀ s : Int,
      List.Forall₂
        (fun d d' => ∀ e ∈ d, isCacheEntryName e.name = false → e ∈ d')
        ds (truncShards m s ds).1 := by
  induction ds with
  | nil => intro s; exact List.Forall₂.nil
  | cons d ds ih =>
    intro s
    exact List.Forall₂.cons
      (fun e he hf => truncSubdir_keeps_foreign m d s e he hf) (ih _)

theorem trimScan_keep (cfg : Config) (st : CacheState) (now : Int)
    (wf rf : Bool) :
    List.Forall₂
      (fun d d' => ∀ e ∈ d, isCacheEntryName e.name = false → e ∈ d')
      st.shards (trimScan cfg st now wf rf).state.shards := by
  simp only [trimScan]
  by_cases hc : 0 < cfg.maxSize ∧
      cfg.maxSize <
        (trimShards (now - cfg.trimLimit) cfg.trimSize (now - cfg.trimInterval) st.shards).2
  · rw [if_pos hc]
    exact forall₂_keep_trans
      (trimShards_keep (now - cfg.trimLimit) cfg.trimSize
        (now - cfg.trimInterval) st.shards)
      (truncShards_keep cfg.maxSize _ _)
  · rw [if_neg hc]
    exact trimShards_keep (now - cfg.trimLimit) cfg.trimSize
      (now - cfg.trimInterval) st.shards

theorem trimAfterFast_keep (cfg : Config) (st : CacheState) (now : Int)
    (wf : Bool) :
    List.Forall₂
      (fun d d' => ∀ e ∈ d, isCacheEntryName e.name = false → e ∈ d')
      st.shards (trimAfterFast cfg st now wf).state.shards := by
  by_cases hi : 0 < cfg.trimInterval
  · cases ht : st.trimTxt with
    | some t =>
      simp only [trimAfterFast, hi, ht, if_true, ite_true]
      by_cases h2 : now - t < cfg.trimInterval
      · rw [if_pos h2]; exact forall₂_keep_refl st.shards
      · rw [if_neg h2]
        exact trimScan_keep cfg { st with lastTrim := some t } now wf true
    | none =>
      simp only [trimAfterFast, hi, ht, if_true, ite_true]
      exact trimScan_keep cfg st now wf true
  · simp only [trimAfterFast, hi, if_false, ite_false]
    exact trimScan_keep cfg st now wf false

theorem trim_keep (cfg : Config) (st : CacheState) (now : Int) (wf : Bool) :
    List.Forall₂
      (fun d d' => ∀ e ∈ d, isCacheEntryName e.name = false → e ∈ d')
      st.shards (trim cfg st now wf).state.shards := by
  cases hl : st.lastTrim with
  | none =>
    simp only [trim, hl]
    exact trimAfterFast_keep cfg st now wf
  | some t =>
    simp only [trim, hl]
    by_cases h2 : now - t < cfg.trimInterval
    · rw [if_pos h2]; exact forall₂_keep_refl st.shards
    · rw [if_neg h2]; exact trimAfterFast_keep cfg st now wf

theorem trimScan_trimTxt (cfg : Config) (st : CacheState) (now : Int)
    (wf rf : Bool) :
    (trimScan cfg st now wf rf).state.trimTxt =
      if wf = true then st.trimTxt else some now := rfl

theorem trimAfterFast_trimTxt_some (cfg : Config) (st : CacheState)
    (now : Int) (wf : Bool) (v : Int) (h : st.trimTxt = some v) :
    ∃ w, (trimAfterFast cfg st now wf).state.trimTxt = some w := by
  by_cases hi : 0 < cfg.trimInterval
  · simp only [trimAfterFast, hi, h, if_true, ite_true]
    by_cases h2 : now - v < cfg.trimInterval
    · rw [if_pos h2]; exact ⟨v, rfl⟩
    · rw [if_neg h2, trimScan_trimTxt]
      cases wf
      · exact ⟨now, by simp⟩
      · exact ⟨v, by simpa using h⟩
  · simp only [trimAfterFast, hi, if_false, ite_false, trimScan_trimTxt]
    cases wf
    · exact ⟨now, by simp⟩
    · exact ⟨v, by simpa using h⟩

theorem trim_trimTxt_some (cfg : Config) (st : CacheState) (now : Int)
    (wf : Bool) (v : Int) (h : st.trimTxt = some v) :
    ∃ w, (trim cfg st now wf).state.trimTxt = some w := by
  cases hl : st.lastTrim with
  | none =>
    simp only [trim, hl]
    exact trimAfterFast_trimTxt_some cfg st now wf v h
  | some t =>
    simp only [trim, hl]
    by_cases h2 : now - t < cfg.trimInterval
    · rw [if_pos h2]; exact ⟨v, h⟩
    · rw [if_neg h2]; exact trimAfterFast_trimTxt_some cfg st now wf v h

/-! ## Claim C9 -/

/-- C9: both trim passes delete only files whose names end in the
reserved suffixes `-a` or `-d`: any other file present in a shard before
`trim` is still present in the corresponding shard afterwards, and the
`trim.txt` timestamp file is never removed by `trim` (at most
rewritten). -/
theorem trim_deletes_only_cache_entries :
    ∀ (cfg : Config) (st : CacheState) (now : Int) (wf : Bool),
      List.Forall₂
        (fun d d' => ∀ e ∈ d, isCacheEntryName e.name = false → e ∈ d')
        st.shards (trim cfg st now wf).state.shards ∧
      (∀ v, st.trimTxt = some v →
        ∃ w, (trim cfg st now wf).state.trimTxt = some w) :=
  fun cfg st now wf =>
    ⟨trim_keep cfg st now wf,
     fun v hv => trim_trimTxt_some cfg st now wf v hv⟩

/-- C9, witness: a very old file named `k` (no reserved suffix) survives
a trim that would have evicted any cache entry of its age, and the
`trim.txt` timestamp file still exists afterwards. -/
theorem trim_deletes_only_cache_entries_witness :
    c9Keep ∈ ((trim c9Cfg c9St 0 false).state.shards.headD []) ∧
    ∃ w, (trim c9Cfg c9St 0 false).state.trimTxt = some w := by
  have h := trim_deletes_only_cache_entries c9Cfg c9St 0 false
  refine ⟨?_, h.2 7 rfl⟩
  have h1 := h.1
  have hs : (trim c9Cfg c9St 0 false).state.shards = [[c9Keep]] := by decide
  rw [hs] at h1 ⊢
  cases h1 with
  | cons hrel htail =>
    rw [List.headD_cons]
    exact hrel c9Keep (by simp) (by decide)

/-! ## Claim C10 -/

theorem applyOpt_nonneg (c : Config) (o : CacheOpt)
    (h : 0 ≤ c.maxSize ∧ 0 ≤ c.trimSize ∧ 0 ≤ c.trimInterval ∧
      0 ≤ c.trimLimit) :
    0 ≤ (applyOpt c o).maxSize ∧ 0 ≤ (applyOpt c o).trimSize ∧
      0 ≤ (applyOpt c o).trimInterval ∧ 0 ≤ (applyOpt c o).trimLimit := by
  obtain ⟨h1, h2, h3, h4⟩ := h
  cases o <;>
    simp only [applyOpt] <;>
    refine ⟨?_, ?_, ?_, ?_⟩ <;>
    first
      | assumption
      | (split_ifs <;>
          first
            | assumption
            | decide
            | omega)

theorem openConfig_foldl_nonneg (opts : List CacheOpt) :
    ∀ c : Config,
      (0 ≤ c.maxSize ∧ 0 ≤ c.trimSize ∧ 0 ≤ c.trimInterval ∧
        0 ≤ c.trimLimit) →
      0 ≤ (opts.foldl applyOpt c).maxSize ∧
        0 ≤ (opts.foldl applyOpt c).trimSize ∧
        0 ≤ (opts.foldl applyOpt c).trimInterval ∧
        0 ≤ (opts.foldl applyOpt c).trimLimit := by
  induction opts with
  | nil => intro c h; simpa using h
  | cons o os ih =>
    intro c h
    simpa [List.foldl_cons] using ih (applyOpt c o) (applyOpt_nonneg c o h)

/-- C10: every configuration produced by `Open` has nonnegative limits:
each numeric option setter replaces a negative argument with the
corresponding package default, and the defaults themselves are
nonnegative, so `maxSize`, `trimSize`, `trimInterval` and `trimLimit`
are all nonnegative after construction, for any option list. -/
theorem openConfig_limits_nonneg :
    (∀ opts : List CacheOpt,
       0 ≤ (openConfig opts).maxSize ∧ 0 ≤ (openConfig opts).trimSize ∧
       0 ≤ (openConfig opts).trimInterval ∧
       0 ≤ (openConfig opts).trimLimit) ∧
    (∀ (c : Config) (n : Int), n < 0 →
       (applyOpt c (.withMaxSize n)).maxSize = DefaultMaxSize ∧
       (applyOpt c (.withTrimSize n)).trimSize = DefaultTrimSize ∧
       (applyOpt c (.withTrimInterval n)).trimInterval = DefaultTrimInterval ∧
       (applyOpt c (.withTrimLimit n)).trimLimit = DefaultTrimLimit) := by
  constructor
  · intro opts
    exact openConfig_foldl_nonneg opts _ (by decide)
  · intro c n hn
    simp [applyOpt, hn]

/-- C10, witness: a negative `WithMaxSize` argument is replaced by the
default, and the resulting configuration's limits are nonnegative. -/
theorem openConfig_limits_nonneg_witness :
    (0 ≤ (openConfig [CacheOpt.withMaxSize (-5)]).maxSize ∧
      0 ≤ (openConfig [CacheOpt.withMaxSize (-5)]).trimSize ∧
      0 ≤ (openConfig [CacheOpt.withMaxSize (-5)]).trimInterval ∧
      0 ≤ (openConfig [CacheOpt.withMaxSize (-5)]).trimLimit) ∧
    (applyOpt c10Cfg (.withMaxSize (-5))).maxSize = DefaultMaxSize :=
  ⟨openConfig_limits_nonneg.1 [CacheOpt.withMaxSize (-5)],
   (openConfig_limits_nonneg.2 c10Cfg (-5) (by decide)).1⟩

/-! ## Claim C3 -/

/-- C3: a POST whose path decodes to a valid ActionID and whose body is
empty is answered `412 Precondition Failed` without invoking
`cache.Put`; a non-empty body is committed via `cache.Put` and (when the
store succeeds) answered `201`. -/
theorem serve_post_empty_body :
    ∀ (b : List Nat) (genv : GetEnv) (penv : PostEnv),
      b.length = actionIDSize →
      penv.createTempOk = true → penv.copyOk = true →
      ((penv.bodyLen = 0 →
          serveHTTP (some b) .post genv penv = ⟨412, false⟩) ∧
       (penv.bodyLen ≠ 0 → penv.putErr = false →
          serveHTTP (some b) .post genv penv = ⟨201, true⟩)) := by
  intro b genv penv hb hc hcp
  constructor
  · intro h0
    simp [serveHTTP, hb, hc, hcp, h0]
  · intro h0 hp
    simp [serveHTTP, hb, hc, hcp, h0, hp]

/-- C3, witness: with a 32-byte decoded ActionID, an empty body yields
`412` with no commit, and a five-byte body yields `201` with a commit. -/
theorem serve_post_empty_body_witness :
    serveHTTP (some (List.replicate 32 0)) .post c3Genv c3PenvEmpty =
      ⟨412, false⟩ ∧
    serveHTTP (some (List.replicate 32 0)) .post c3Genv c3PenvFull =
      ⟨201, true⟩ :=
  ⟨(serve_post_empty_body (List.replicate 32 0) c3Genv c3PenvEmpty
      (by decide) rfl rfl).1 rfl,
   (serve_post_empty_body (List.replicate 32 0) c3Genv c3PenvFull
      (by decide) rfl rfl).2 (by decide) rfl⟩

/-! ## Claim C4 -/

/-- C4: a GET whose path decodes to a valid ActionID and whose stored
content file has zero length is never answered `200`; on the path where
the store resolves the file and it opens and stats successfully, the
answer is `404`. -/
theorem serve_get_zero_length :
    ∀ (b : List Nat) (genv : GetEnv) (penv : PostEnv),
      b.length = actionIDSize → genv.fileSize = 0 →
      ((serveHTTP (some b) .get genv penv).status ≠ 200 ∧
       (∀ fn, genv.getFileFn = some fn → genv.getFileErr = false →
          genv.openOk = true → genv.statOk = true →
          serveHTTP (some b) .get genv penv = ⟨404, false⟩)) := by
  intro b genv penv hb hz
  constructor
  · cases hf : genv.getFileFn with
    | none => simp [serveHTTP, hb, hf]
    | some fn =>
      simp only [serveHTTP, hb, hf, hz, ne_eq]
      split_ifs <;> simp
  · intro fn hf he ho hs
    simp [serveHTTP, hb, hf, he, ho, hs, hz]

/-- C4, witness: with a valid 32-byte ActionID and a zero-length stored
file that resolves, opens and stats fine, the response is `404`, and in
particular not `200`. -/
theorem serve_get_zero_length_witness :
    (serveHTTP (some (List.replicate 32 1)) .get c4Genv c4Penv).status ≠ 200 ∧
    serveHTTP (some (List.replicate 32 1)) .get c4Genv c4Penv = ⟨404, false⟩ :=
  ⟨(serve_get_zero_length (List.replicate 32 1) c4Genv c4Penv
      (by decide) rfl).1,
   (serve_get_zero_length (List.replicate 32 1) c4Genv c4Penv
      (by decide) rfl).2 ['f'] rfl rfl rfl rfl⟩

end Filecache
